import Mathlib

/-!
# Verification of the virtualshell command multiplexer and bulk channel

Shallow embedding, in Lean 4, of the core of the `virtualshell` repository:

* the shared-memory bulk channel (`src/win_pwsh_dll/include/vs_shm.h` /
  `src/vs_shm.cpp`): `VS_OpenChannel`, `write_direction`, `read_direction`;
* the command multiplexer (`VirtualShell` in the bridge source):
  `build_pwsh_packet`, `submit`, `onChunk_` (stdout demultiplexer and stderr
  routing), `completeCmdLocked_`, `fulfillTimeout_`, `timeoutOne_`, `stop`.

Byte strings are modelled as `List Char` (for the text pipes) or `List Nat`
(for the binary bulk regions).  Machine counters are `Nat` (the 64-bit
counters of the source never wrap in any reachable execution modelled here).
Blocking calls are modelled by passing the outcome of the blocking primitive
(mutex acquisition, wait loop) as an explicit argument; paths that would
enter a real-time wait loop are represented by a distinguished constructor
so nothing about them is asserted.  Events that matter for ordering claims
(map insertion, packet enqueue, promise resolution, map removal) are
returned as explicit trace lists.
-/

namespace VirtualShell

/-! ## Status codes (`enum VS_Status`, include/vs_shm.h) -/

def VS_OK : Int := 0
def VS_TIMEOUT : Int := 1
def VS_WOULD_BLOCK : Int := 2
def VS_SMALL_BUFFER : Int := 3
def VS_INVALID_ARG : Int := -1
def VS_SYS_ERROR : Int := -2
def VS_BAD_STATE : Int := -3

/-! ## Bulk-channel header and channel state (vs_shm) -/

def MAGIC : Nat := 0x4D485356
def VER : Nat := 1

/-- `MAGIC64 = (uint64(VER) << 32) | MAGIC`, the expected value of the
header's combined magic-and-version field. -/
def MAGIC64 : Nat := VER * 2 ^ 32 + MAGIC

/-- The legacy 128-byte `VS_Header`, restricted to the fields the verified
operations touch.  The anonymous union of `magic`/`version` with
`magic_and_version` is modelled by the single aggregate field; the 32-bit
`magic` is its low half and `version` its high half. -/
structure VSHeader where
  magicAndVersion : Nat
  frameBytes : Nat
  pythonSeq : Nat
  powershellSeq : Nat
  pythonLength : Nat
  powershellLength : Nat
deriving Repr, DecidableEq

/-- `struct Channel`: the mapped header, the two payload regions
(`py2p` first, `ps2p` second, per `map_layout`), and the per-handle
last-consumed sequence numbers. -/
structure Channel where
  hdr : VSHeader
  py2p : List Nat
  ps2p : List Nat
  lastPythonSeqRead : Nat
  lastPowershellSeqRead : Nat
deriving Repr, DecidableEq

/-- The header `VS_OpenChannel` writes after zero-filling an uninitialized
mapping: magic/version set, `frame_bytes` set to the request, all sequence
and length fields zero. -/
def freshHeader (F : Nat) : VSHeader :=
  { magicAndVersion := MAGIC64, frameBytes := F, pythonSeq := 0,
    powershellSeq := 0, pythonLength := 0, powershellLength := 0 }

/-- `VS_OpenChannel` (vs_shm.cpp).  `prior` is the header contents found in
the mapping (all-zero when the OS created the mapping fresh); `mapOk`
abstracts success of `CreateFileMappingW`/`MapViewOfFile`, `syncOk` success
of creating the mutex and the four events.  Returns the mapped header on
success, `none` where the source returns `nullptr`. -/
def VS_OpenChannel (nameNull : Bool) (frameBytes : Nat) (numSlots : Nat)
    (prior : VSHeader) (mapOk : Bool) (syncOk : Bool) : Option VSHeader :=
  if nameNull ∨ frameBytes = 0 ∨ numSlots = 0 then none
  else if numSlots ≠ 1 then none
  else if ¬mapOk then none
  else if prior.magicAndVersion ≠ MAGIC64 then
    -- uninitialized: zero-fill the mapping and write a fresh header
    let hdr := freshHeader frameBytes
    if hdr.frameBytes = 0 then none          -- map_layout guard
    else if ¬syncOk then none
    else some hdr
  else if prior.frameBytes ≠ frameBytes then none  -- incompatible frame size
  else if prior.frameBytes = 0 then none           -- map_layout guard
  else if ¬syncOk then none
  else some prior

/-- `write_direction` (vs_shm.cpp).  `payload` is the `len` bytes at `data`
(`dataNull` models a null `data` pointer), `lockResult` the outcome of
`lock_mutex(c->hMutex, timeout_ms)`.  Returns the status, the channel after
the call, and the value stored through `next_seq`. -/
def write_direction (c : Channel) (psToPy : Bool) (payload : List Nat)
    (dataNull : Bool) (lockResult : Int) : Int × Channel × Option Nat :=
  let len := payload.length
  if len > c.hdr.frameBytes then (VS_INVALID_ARG, c, none)
  else if len > 0 ∧ dataNull then (VS_INVALID_ARG, c, none)
  else if lockResult ≠ VS_OK then (lockResult, c, none)
  else
    let c₁ :=
      if psToPy then
        { c with ps2p := if len > 0 then payload ++ c.ps2p.drop len else c.ps2p,
                 hdr := { c.hdr with powershellLength := len,
                                     powershellSeq := c.hdr.powershellSeq + 1 } }
      else
        { c with py2p := if len > 0 then payload ++ c.py2p.drop len else c.py2p,
                 hdr := { c.hdr with pythonLength := len,
                                     pythonSeq := c.hdr.pythonSeq + 1 } }
    let seqValue := if psToPy then c₁.hdr.powershellSeq else c₁.hdr.pythonSeq
    (VS_OK, c₁, some seqValue)

/-- One call to `write_direction`, as seen by a driver that replays a list of
writes. -/
structure WriteOp where
  psToPy : Bool
  payload : List Nat
  dataNull : Bool
  lockResult : Int
deriving Repr, DecidableEq

/-- Replay a list of `write_direction` calls, threading the channel state. -/
def runWrites (c : Channel) : List WriteOp → Channel
  | [] => c
  | op :: ops =>
      runWrites (write_direction c op.psToPy op.payload op.dataNull op.lockResult).2.1 ops

/-- Result of `read_direction`: either a return (status, channel after the
call, the value stored through `out_len`, the bytes copied into `dst`), or
entry into the real-time wait loop (`timeout_ms ≠ 0` and no new data), which
this embedding does not model further. -/
inductive ReadOutcome where
  | ret (status : Int) (c : Channel) (outLen : Option Nat) (data : Option (List Nat))
  | blocked
deriving Repr, DecidableEq

/-- `read_direction` (vs_shm.cpp).  `outLenNull`/`dstNull` model null
`out_len`/`dst` pointers, `cap` is `dst_cap`, `lockResult` the outcome of
`lock_mutex`.  The initial sequence check and the `timeout_ms == 0` early
return are taken from the first iteration of the wait loop; a call that
would actually wait yields `.blocked`. -/
def read_direction (c : Channel) (readPyToPs : Bool) (outLenNull : Bool)
    (dstNull : Bool) (cap : Nat) (timeoutMs : Nat) (lockResult : Int) : ReadOutcome :=
  if outLenNull then .ret VS_INVALID_ARG c none none
  else
    let lastSeq := if readPyToPs then c.lastPythonSeqRead else c.lastPowershellSeqRead
    let seqVal := if readPyToPs then c.hdr.pythonSeq else c.hdr.powershellSeq
    if seqVal ≤ lastSeq then
      if timeoutMs = 0 then .ret VS_TIMEOUT c none none else .blocked
    else if lockResult ≠ VS_OK then .ret lockResult c none none
    else
      let length := if readPyToPs then c.hdr.pythonLength else c.hdr.powershellLength
      if length > c.hdr.frameBytes then .ret VS_BAD_STATE c none none
      else if ¬dstNull ∧ cap < length then .ret VS_SMALL_BUFFER c (some length) none
      else
        let src := if readPyToPs then c.py2p else c.ps2p
        let c' := if readPyToPs then { c with lastPythonSeqRead := c.hdr.pythonSeq }
                  else { c with lastPowershellSeqRead := c.hdr.powershellSeq }
        .ret VS_OK c' (some length) (if dstNull then none else some (src.take length))

/-- A concrete channel with no unconsumed data, used as a counterexample
input for the zero-timeout read. -/
def exChNoData : Channel :=
  { hdr := { magicAndVersion := MAGIC64, frameBytes := 8, pythonSeq := 4,
             powershellSeq := 0, pythonLength := 3, powershellLength := 0 },
    py2p := [9, 9, 9, 0, 0, 0, 0, 0], ps2p := [0, 0, 0, 0, 0, 0, 0, 0],
    lastPythonSeqRead := 4, lastPowershellSeqRead := 0 }

/-- A concrete channel with one unconsumed PS→PY payload of 2 bytes, used
as a witness input for the probe read in the PS→PY direction. -/
def exChDataPs : Channel :=
  { hdr := { magicAndVersion := MAGIC64, frameBytes := 8, pythonSeq := 0,
             powershellSeq := 7, pythonLength := 0, powershellLength := 2 },
    py2p := [0, 0, 0, 0, 0, 0, 0, 0], ps2p := [4, 5, 0, 0, 0, 0, 0, 0],
    lastPythonSeqRead := 0, lastPowershellSeqRead := 6 }

/-- A concrete channel with one unconsumed PY→PS payload of 3 bytes, used as
a counterexample input for the probe read. -/
def exChData : Channel :=
  { hdr := { magicAndVersion := MAGIC64, frameBytes := 8, pythonSeq := 5,
             powershellSeq := 0, pythonLength := 3, powershellLength := 0 },
    py2p := [1, 2, 3, 0, 0, 0, 0, 0], ps2p := [0, 0, 0, 0, 0, 0, 0, 0],
    lastPythonSeqRead := 4, lastPowershellSeqRead := 0 }

/-! ## List utilities mirroring `std::string` operations -/

/-- `isPrefixL pat s`: `pat` occurs at position 0 of `s`. -/
def isPrefixL : List Char → List Char → Bool
  | [], _ => true
  | _ :: _, [] => false
  | a :: as, b :: bs => a == b && isPrefixL as bs

/-- `findSub pat s` is `s.find(pat)` of `std::string`: the first index at
which `pat` occurs in `s` (`none` for `npos`; the empty pattern occurs at
index 0). -/
def findSub (pat : List Char) : List Char → Option Nat
  | [] => if isPrefixL pat [] then some 0 else none
  | a :: s => if isPrefixL pat (a :: s) then some 0 else (findSub pat s).map (· + 1)

/-- Skip one optional leading `'\r'`. -/
def skipCr (s : List Char) : List Char :=
  match s with
  | c :: t => if c = '\r' then t else s
  | [] => []

/-- Skip one optional leading `'\n'`. -/
def skipLf (s : List Char) : List Char :=
  match s with
  | c :: t => if c = '\n' then t else s
  | [] => []

/-- The marker-skipping step of `onChunk_`: after a marker, skip one
optional `'\r'` and then one optional `'\n'`. -/
def skipCrlf (s : List Char) : List Char := skipLf (skipCr s)

/-! ## Markers and packets -/

/-- The single-quote character, written via its code point. -/
def squote : Char := Char.ofNat 39

/-- Decimal digit character, as produced by `std::to_string`. -/
def digitChar (d : Nat) : Char :=
  if d = 0 then '0' else if d = 1 then '1' else if d = 2 then '2'
  else if d = 3 then '3' else if d = 4 then '4' else if d = 5 then '5'
  else if d = 6 then '6' else if d = 7 then '7' else if d = 8 then '8' else '9'

/-- Fuelled decimal printer (most significant digit first). -/
def decimalCharsAux : Nat → Nat → List Char
  | 0, _ => []
  | fuel + 1, n =>
      if n < 10 then [digitChar n]
      else decimalCharsAux fuel (n / 10) ++ [digitChar (n % 10)]

/-- `std::to_string` for an unsigned 64-bit id: its decimal digits. -/
def decimalChars (n : Nat) : List Char := decimalCharsAux (n + 1) n

/-- `"<<<SS_BEG_" + std::to_string(id) + ">>>"` (submit / build_pwsh_packet). -/
def begMarker (id : Nat) : List Char :=
  "<<<SS_BEG_".toList ++ decimalChars id ++ ">>>".toList

/-- `"<<<SS_END_" + std::to_string(id) + ">>>"` (submit / build_pwsh_packet). -/
def endMarker (id : Nat) : List Char :=
  "<<<SS_END_".toList ++ decimalChars id ++ ">>>".toList

/-- `ps_quote_single` body: each quote character is doubled. -/
def quoteBody : List Char → List Char
  | [] => []
  | c :: t => (if c = squote then [squote, squote] else [c]) ++ quoteBody t

/-- `ps_quote_single` (build_pwsh_packet): wrap in single quotes, doubling
embedded quotes. -/
def psQuoteSingle (s : List Char) : List Char := squote :: (quoteBody s ++ [squote])

/-- One `[Console]::Out.WriteLine('…')` line of the packet. -/
def writeLine (m : List Char) : List Char :=
  "[Console]::Out.WriteLine(".toList ++ psQuoteSingle m ++ ")\n".toList

/-- The newline step of `build_pwsh_packet`: append `'\n'` when the
accumulated packet is empty or does not already end in one
(`full.empty() || full.back() != '\n'`). -/
def packetAppendNl (s : List Char) : List Char :=
  if s = [] ∨ s.getLast? ≠ some '\n' then s ++ ['\n'] else s

/-- `VirtualShell::build_pwsh_packet`: BEG line, body (the source appends a
newline when the accumulated packet does not end in one), END line. -/
def buildPwshPacket (id : Nat) (cmd : List Char) : List Char :=
  packetAppendNl (writeLine (begMarker id) ++ cmd) ++ writeLine (endMarker id)

/-- Modelled from the spec (§4.2/§6 wire format, for comparison with
`buildPwshPacket`): BEG line, then the body followed by a newline if and
only if the body does not already end in one, then the END line. -/
def claimedPacket (id : Nat) (cmd : List Char) : List Char :=
  writeLine (begMarker id) ++ cmd ++
    (if cmd.getLast? ≠ some '\n' then ['\n'] else []) ++ writeLine (endMarker id)

/-! ## Command records, results, events -/

/-- `ExecutionResult` (execution_result.hpp): value-initialised fields as in
`ExecutionResult{}`.  `executionTime` is in abstract clock ticks. -/
structure ExecutionResult where
  out : List Char := []
  err : List Char := []
  exitCode : Int := 0
  success : Bool := false
  executionTime : Nat := 0
deriving Repr, DecidableEq

/-- `struct CmdState`: one in-flight command record.  The promise and the
callback are represented by the trace events they emit; `hasCb` records
whether a callback was supplied and `cbThrows` whether it would throw when
invoked (the source swallows such exceptions). -/
structure CmdState where
  id : Nat
  beginMarker : List Char
  endMarker : List Char
  preBuf : List Char := []
  outBuf : List Char := []
  errBuf : List Char := []
  begun : Bool := false
  done : Bool := false
  timedOut : Bool := false
  tStart : Nat := 0
  tDeadline : Option Nat := none
  hasCb : Bool := false
  cbThrows : Bool := false
deriving Repr, DecidableEq

/-- Observable actions of the tracker, in program order. -/
inductive Ev where
  | insertInflight (id : Nat)
  | pushOrder (id : Nat)
  | enqueueWrite (id : Nat)
  | resolvePromise (id : Nat)
  | invokeCallback (id : Nat)
  | eraseInflight (id : Nat)
  | eraseOrder (id : Nat)
deriving Repr, DecidableEq

/-- `ev is reached strictly before b ever is` in a trace: scanning left to
right, `a` is met before any occurrence of `b` (and `a` does occur). -/
def firstReached (a b : Ev) : List Ev → Bool
  | [] => false
  | e :: t => if e == b then false else if e == a then true else firstReached a b t

/-- `VirtualShell::completeCmdLocked_`: idempotent completion.  Returns the
resolved result (`none` when the record was already done), the emitted
events (promise resolution, then the optional callback), and the record
afterwards (buffers moved out, `done` set).  The outputs do not depend on
`cbThrows`: callback exceptions are swallowed. -/
def completeCmdLocked (S : CmdState) (success : Bool) (now : Nat) :
    Option ExecutionResult × List Ev × CmdState :=
  if S.done then (none, [], S)
  else
    (some { success := success && !S.timedOut,
            exitCode := if (success && !S.timedOut) = true then 0 else -1,
            out := S.outBuf, err := S.errBuf, executionTime := now - S.tStart },
     Ev.resolvePromise S.id :: (if S.hasCb then [Ev.invokeCallback S.id] else []),
     { S with done := true, outBuf := [], errBuf := [] })

/-! ## Shell state and association-list primitives for `inflight_` -/

/-- The configuration fields the verified operations read. -/
structure Config where
  timeoutSeconds : Nat
  autoRestartOnTimeout : Bool
deriving Repr, DecidableEq

/-- The `VirtualShell` state touched by the verified operations:
`inflight_` (unordered_map, modelled as an association list), the FIFO
`inflightOrder_`, the writer queue, and the lifecycle/sentinel counters. -/
structure ShellState where
  lifecycleGate : Bool
  isRunning : Bool
  isRestarting : Bool := false
  seq : Nat
  inflight : List (Nat × CmdState)
  inflightOrder : List Nat
  inflightCount : Nat := 0
  writeQueue : List (List Char) := []
  pendingTimeoutSentinels : Nat := 0
deriving Repr, DecidableEq

/-- `inflight_.find(id)`. -/
def lookupKey (id : Nat) : List (Nat × CmdState) → Option CmdState
  | [] => none
  | p :: t => if p.1 = id then some p.2 else lookupKey id t

/-- `inflight_.erase(id)` (at most one entry per key). -/
def eraseKey (id : Nat) : List (Nat × CmdState) → List (Nat × CmdState)
  | [] => []
  | p :: t => if p.1 = id then t else p :: eraseKey id t

/-- Write back a record through the map reference (`it->second`). -/
def updateKey (id : Nat) (S : CmdState) : List (Nat × CmdState) → List (Nat × CmdState)
  | [] => []
  | p :: t => if p.1 = id then (id, S) :: t else p :: updateKey id S t

/-! ## submit -/

/-- What `submit` hands back: a ready (error) future, or a pending future
tied to a command id. -/
inductive SubmitOutcome where
  | ready (r : ExecutionResult)
  | pending (id : Nat)
deriving Repr, DecidableEq

/-- The ready result `submit` builds while the lifecycle gate is closed. -/
def restartingResult : ExecutionResult :=
  { out := [], err := "PowerShell process is restarting".toList,
    exitCode := -2, success := false, executionTime := 0 }

/-- The ready result `submit` builds when the process is not running. -/
def notRunningResult : ExecutionResult :=
  { out := [], err := "PowerShell process is not running".toList,
    exitCode := -3, success := false, executionTime := 0 }

/-- The record `submit` creates for id `id` at time `now`. -/
def freshCmd (id : Nat) (now : Nat) (tsec : Nat) (hasCb : Bool) : CmdState :=
  { id := id, beginMarker := begMarker id, endMarker := endMarker id,
    preBuf := [], outBuf := [], errBuf := [], begun := false, done := false,
    timedOut := false, tStart := now,
    tDeadline := if tsec > 0 then some (now + tsec) else none,
    hasCb := hasCb, cbThrows := false }

/-- `VirtualShell::submit`: gate and liveness checks produce ready error
futures; otherwise allocate the next id, create the record, register it in
the map and the FIFO, then enqueue the packet for the writer thread.  No
path throws: every error is delivered through the returned result. -/
def submit (st : ShellState) (cfg : Config) (command : List Char)
    (timeoutSeconds : Nat) (hasCb : Bool) (bypassRestart : Bool) (now : Nat) :
    SubmitOutcome × ShellState × List Ev :=
  if st.lifecycleGate ∧ ¬bypassRestart then (.ready restartingResult, st, [])
  else if ¬st.isRunning then (.ready notRunningResult, st, [])
  else
    let id := st.seq + 1
    let tsec := if timeoutSeconds > 0 then timeoutSeconds else cfg.timeoutSeconds
    let S := freshCmd id now tsec hasCb
    (.pending id,
     { st with seq := id,
               inflight := st.inflight ++ [(id, S)],
               inflightOrder := st.inflightOrder ++ [id],
               inflightCount := st.inflightCount + 1,
               writeQueue := st.writeQueue ++ [buildPwshPacket id command] },
     [Ev.insertInflight id, Ev.pushOrder id, Ev.enqueueWrite id])

/-! ## Timeout paths -/

/-- `VirtualShell::fulfillTimeout_` on a record already detached from the
map: bump the expected-sentinel tally if requested, decrement the in-flight
counter, build the error result (`err` falls back to `"timeout"`), request
an async restart when configured (closing the lifecycle gate), resolve the
promise, then run the optional callback. -/
def fulfillTimeout (st : ShellState) (S : CmdState) (expectSentinel : Bool)
    (cfg : Config) : ShellState × ExecutionResult × List Ev :=
  let st1 := if expectSentinel then
      { st with pendingTimeoutSentinels := st.pendingTimeoutSentinels + 1 } else st
  let st2 := { st1 with inflightCount := st1.inflightCount - 1 }
  let r : ExecutionResult :=
    { success := false, exitCode := -1, out := [],
      err := if S.errBuf = [] then "timeout".toList else S.errBuf,
      executionTime := 0 }
  let st3 := if cfg.autoRestartOnTimeout then
      { st2 with lifecycleGate := true, isRestarting := true } else st2
  (st3, r, Ev.resolvePromise S.id :: (if S.hasCb then [Ev.invokeCallback S.id] else []))

/-- `VirtualShell::timeoutOne_`: under the state lock, move the record out
of the map, mark it timed out, erase it from the map and the FIFO, then
(lock released) fulfil the timeout. -/
def timeoutOne (st : ShellState) (cfg : Config) (id : Nat) : ShellState × List Ev :=
  match lookupKey id st.inflight with
  | none => (st, [])
  | some S =>
      let st1 := { st with inflight := eraseKey id st.inflight,
                           inflightOrder := st.inflightOrder.erase id }
      let (st2, _, evs) := fulfillTimeout st1 { S with timedOut := true } true cfg
      (st2, Ev.eraseInflight id :: Ev.eraseOrder id :: evs)

/-! ## stderr chunk handling -/

/-- `INTERNAL_TIMEOUT_SENTINEL` (helpers.h). -/
def sentinel : List Char := "__VS_INTERNAL_TIMEOUT__".toList

/-- The sentinel-stripping loop of the stderr branch of `onChunk_`.
Each found sentinel (plus an optional trailing CR/LF) is erased from the
chunk; while the expected tally is positive it is consumed against the
tally, otherwise the loop stops, reporting whether a head command is to be
failed (`hasHead` is whether the FIFO front resolved to a live record).
The fuel is the chunk length; each iteration removes at least the sentinel
from the chunk, so fuel never runs out when started at the length. -/
def sentinelScan : Nat → List Char → Nat → Bool → List Char × Nat × Bool
  | 0, chunk, pending, _ => (chunk, pending, false)
  | fuel + 1, chunk, pending, hasHead =>
    if chunk = [] then (chunk, pending, false)
    else
      match findSub sentinel chunk with
      | none => (chunk, pending, false)
      | some pos =>
          if pending > 0 then
            sentinelScan fuel
              (chunk.take pos ++ skipCrlf (chunk.drop (pos + sentinel.length)))
              (pending - 1) hasHead
          else (chunk.take pos ++ skipCrlf (chunk.drop (pos + sentinel.length)),
                pending, hasHead)

/-- The stderr branch of `VirtualShell::onChunk_`: route the chunk to the
FIFO head's error buffer after stripping timeout sentinels; a sentinel not
covered by the expected tally fails the head command as timed out. -/
def onChunkErr (st : ShellState) (cfg : Config) (sv : List Char) : ShellState × List Ev :=
  if sv = [] then (st, [])
  else
    let headCmd : Option (Nat × CmdState) :=
      match st.inflightOrder with
      | [] => none
      | id :: _ =>
          match lookupKey id st.inflight with
          | some S => some (id, S)
          | none => none
    let scanned := sentinelScan sv.length sv st.pendingTimeoutSentinels headCmd.isSome
    let chunk' := scanned.1
    let st1 := { st with pendingTimeoutSentinels := scanned.2.1 }
    match headCmd with
    | none => (st1, [])
    | some (stId, S) =>
        let S1 := if scanned.2.2 then { S with timedOut := true } else S
        let S2 := if chunk' ≠ [] then { S1 with errBuf := S1.errBuf ++ chunk' } else S1
        if scanned.2.2 then
          let st2 := { st1 with inflight := eraseKey stId st1.inflight,
                                inflightOrder := st1.inflightOrder.erase stId }
          let (st3, _, evs) := fulfillTimeout st2 S2 false cfg
          (st3, Ev.eraseInflight stId :: Ev.eraseOrder stId :: evs)
        else
          ({ st1 with inflight := updateKey stId S2 st1.inflight }, [])

/-! ## stdout demultiplexer -/

/-- The begin-marker block of the stdout branch of `onChunk_` (`if
(!S.begun)`): a record that has already begun keeps the carry as the
working chunk; otherwise the carry is appended to `preBuf` and the begin
marker searched — on success everything up to and including the marker
(and an optional CR/LF) is discarded, `begun` is set, and the bytes after
it become the working chunk; on failure (`none`) the loop breaks. -/
def beginPhase (S : CmdState) (carry : List Char) : Option (CmdState × List Char) :=
  if S.begun then some (S, carry)
  else
    match findSub S.beginMarker (S.preBuf ++ carry) with
    | none => none
    | some b =>
        some ({ S with preBuf := [], begun := true },
              skipCrlf ((S.preBuf ++ carry).drop (b + S.beginMarker.length)))

/-- The bound on `preBuf` while the begin marker has not been found: keep
only the last 256 KiB. -/
def capPreBuf (pre : List Char) : List Char :=
  if pre.length > 256 * 1024 then pre.drop (pre.length - 256 * 1024) else pre

/-- The stdout branch of `VirtualShell::onChunk_`: scan the working carry
against the FIFO of in-flight ids.  Returns the map and FIFO afterwards,
the completions in resolution order, and the event trace.  Recursion is on
the FIFO: every continuing loop iteration of the source pops the front. -/
def onChunkOut (now : Nat) : List Nat → List Char → List (Nat × CmdState) →
    List (Nat × CmdState) × List Nat × List (Nat × ExecutionResult) × List Ev
  | [], _, infl => (infl, [], [], [])
  | id :: rest, carry, infl =>
    if carry = [] then (infl, id :: rest, [], [])
    else
      match lookupKey id infl with
      | none => onChunkOut now rest carry infl
      | some S =>
          match beginPhase S carry with
          | none =>
              (updateKey id { S with preBuf := capPreBuf (S.preBuf ++ carry) } infl,
               id :: rest, [], [])
          | some (S1, carry1) =>
              match findSub S1.endMarker (S1.outBuf ++ carry1) with
              | none =>
                  (updateKey id { S1 with outBuf := S1.outBuf ++ carry1 } infl,
                   id :: rest, [], [])
              | some m =>
                  let done := completeCmdLocked
                    { S1 with outBuf := (S1.outBuf ++ carry1).take m } true now
                  let rec_ := onChunkOut now rest
                    (skipCrlf ((S1.outBuf ++ carry1).drop (m + S1.endMarker.length)))
                    (eraseKey id infl)
                  (rec_.1, rec_.2.1,
                   (match done.1 with | some r => [(id, r)] | none => []) ++ rec_.2.2.1,
                   done.2.1 ++ Ev.eraseInflight id :: Ev.eraseOrder id :: rec_.2.2.2)

/-- The stdout stream an interpreter that executes packets sequentially
produces for the given commands: for each command, its begin marker and a
newline, the command's output bytes, its end marker and a newline. -/
def interpOut : List (Nat × List Char) → List Char
  | [] => []
  | p :: rest => begMarker p.1 ++ '\n' :: (p.2 ++ endMarker p.1 ++ '\n' :: interpOut rest)

/-! ## stop -/

/-- The per-record completion `stop` performs on a still-pending record:
append the diagnostic to the error buffer, then complete unsuccessfully. -/
def stopResolveOne (now : Nat) (p : Nat × CmdState) : List Ev :=
  if p.2.done then []
  else
    (completeCmdLocked { p.2 with errBuf := p.2.errBuf ++ "Process stopped.\n".toList }
      false now).2.1

/-- `VirtualShell::stop` restricted to its tracker effects: idempotent fast
exit when not running; otherwise close the gate, fail every still-pending
in-flight record (resolving each promise), then clear the map and the
writer queue, reopening the gate at the end.  Thread joins, pipe closes and
process termination are outside this state model. -/
def stopShell (st : ShellState) (_force : Bool) (now : Nat) : ShellState × List Ev :=
  if ¬st.isRunning then ({ st with lifecycleGate := false }, [])
  else
    let evs := (st.inflight.map (stopResolveOne now)).flatten
    ({ st with lifecycleGate := false, isRunning := false,
               inflight := [], writeQueue := [] },
     evs ++ st.inflight.map (fun p => Ev.eraseInflight p.1))

/-- Well-formedness of the in-flight map, maintained by the tracker: each
record's `id` equals its key, no record is already completed, and keys are
not duplicated (ids come from a monotonic counter). -/
def wfInflight (infl : List (Nat × CmdState)) : Prop :=
  (∀ p ∈ infl, p.2.id = p.1 ∧ p.2.done = false) ∧ (infl.map Prod.fst).Nodup

/-! ## Concrete example states -/

/-- A one-command in-flight state used for counterexample and witness
inputs. -/
def exCmd : CmdState :=
  { id := 1, beginMarker := begMarker 1, endMarker := endMarker 1,
    preBuf := [], outBuf := [], errBuf := [], begun := false, done := false,
    timedOut := false, tStart := 0, tDeadline := some 5, hasCb := false,
    cbThrows := false }

def exShellState : ShellState :=
  { lifecycleGate := false, isRunning := true, isRestarting := false, seq := 1,
    inflight := [(1, exCmd)], inflightOrder := [1], inflightCount := 1,
    writeQueue := [], pendingTimeoutSentinels := 0 }

def exConfig : Config := { timeoutSeconds := 30, autoRestartOnTimeout := false }

/-- A running state with an empty FIFO and a positive expected-sentinel
tally. -/
def exEmptyState : ShellState :=
  { lifecycleGate := false, isRunning := true, isRestarting := false, seq := 3,
    inflight := [], inflightOrder := [], inflightCount := 0,
    writeQueue := [], pendingTimeoutSentinels := 2 }

end VirtualShell

namespace VirtualShell

/-! ## Theorems: bulk channel -/

/-- **C5.** `write_direction`: an oversized payload is rejected with
`invalid_arg` and the channel (hence every header field) is unchanged;
otherwise, with the mutex acquired and a valid data pointer, the payload is
copied to offset 0 of the direction's region, the direction's length field
is stored, the direction's sequence counter is incremented by exactly one
and the new value is returned as next-seq; and across any sequence of
`write_direction` calls the sequence counters never decrease. -/
theorem write_direction_ok (c : Channel) (psToPy : Bool) (payload : List Nat)
    (dataNull : Bool) (lockResult : Int)
    (hlen : payload.length ≤ c.hdr.frameBytes)
    (hdata : ¬(payload.length > 0 ∧ dataNull))
    (hlock : lockResult = VS_OK) :
    (∀ big : List Nat, big.length > c.hdr.frameBytes →
        write_direction c psToPy big dataNull lockResult = (VS_INVALID_ARG, c, none)) ∧
    (let out := write_direction c psToPy payload dataNull lockResult
     out.1 = VS_OK ∧
     (psToPy = true →
        out.2.1.ps2p = payload ++ c.ps2p.drop payload.length ∧
        out.2.1.hdr.powershellLength = payload.length ∧
        out.2.1.hdr.powershellSeq = c.hdr.powershellSeq + 1 ∧
        out.2.1.hdr.pythonSeq = c.hdr.pythonSeq ∧
        out.2.2 = some (c.hdr.powershellSeq + 1)) ∧
     (psToPy = false →
        out.2.1.py2p = payload ++ c.py2p.drop payload.length ∧
        out.2.1.hdr.pythonLength = payload.length ∧
        out.2.1.hdr.pythonSeq = c.hdr.pythonSeq + 1 ∧
        out.2.1.hdr.powershellSeq = c.hdr.powershellSeq ∧
        out.2.2 = some (c.hdr.pythonSeq + 1))) ∧
    (∀ (c₀ : Channel) (ops : List WriteOp),
        c₀.hdr.powershellSeq ≤ (runWrites c₀ ops).hdr.powershellSeq ∧
        c₀.hdr.pythonSeq ≤ (runWrites c₀ ops).hdr.pythonSeq) := by
  refine ⟨?_, ?_, ?_⟩
  · intro big hbig
    simp only [write_direction]
    rw [if_pos (by omega)]
  · have hnot : ¬ payload.length > c.hdr.frameBytes := by omega
    cases psToPy with
    | true =>
      simp only [write_direction, hlock, hnot, hdata, if_false, if_neg hnot,
        if_neg hdata]
      simp
      intro h; subst h; simp
    | false =>
      simp only [write_direction, hlock, hnot, hdata, if_false, if_neg hnot,
        if_neg hdata]
      simp
      intro h; subst h; simp
  · intro c₀ ops
    induction ops generalizing c₀ with
    | nil => exact ⟨le_refl _, le_refl _⟩
    | cons op ops ih =>
      have step : c₀.hdr.powershellSeq ≤
          (write_direction c₀ op.psToPy op.payload op.dataNull op.lockResult).2.1.hdr.powershellSeq ∧
          c₀.hdr.pythonSeq ≤
          (write_direction c₀ op.psToPy op.payload op.dataNull op.lockResult).2.1.hdr.pythonSeq := by
        simp only [write_direction]
        split
        · exact ⟨le_refl _, le_refl _⟩
        · split
          · exact ⟨le_refl _, le_refl _⟩
          · split
            · exact ⟨le_refl _, le_refl _⟩
            · cases op.psToPy <;> simp
      have := ih (write_direction c₀ op.psToPy op.payload op.dataNull op.lockResult).2.1
      exact ⟨le_trans step.1 this.1, le_trans step.2 this.2⟩

/-- Witness for `write_direction_ok` at a concrete input. -/
theorem write_direction_ok_witness :
    ([5, 6] : List Nat).length ≤ exChNoData.hdr.frameBytes ∧
    ¬(([5, 6] : List Nat).length > 0 ∧ False) ∧
    (write_direction exChNoData false [5, 6] false VS_OK).1 = VS_OK := by
  refine ⟨by decide, by decide, ?_⟩
  have h := write_direction_ok exChNoData false [5, 6] false VS_OK
    (by decide) (by simp) rfl
  exact h.2.1.1

/-- **C6 counterexample.** The claim says a zero-timeout bulk read with no
new data returns the would-block status code `2`; on the concrete channel
`exChNoData` the code returns the timeout status code `1` instead. -/
theorem read_zero_timeout_counterexample :
    read_direction exChNoData true false false 16 0 VS_OK
      = .ret 1 exChNoData none none ∧ (1 : Int) ≠ VS_WOULD_BLOCK := by
  constructor
  · decide
  · decide

/-- **C6 (amended).** A bulk read invoked with timeout zero while the
direction's sequence counter has not advanced past the reader's
last-consumed value returns the *timeout* status code (1); the would-block
code (2) is never produced on this path. -/
theorem read_zero_timeout_returns_timeout (c : Channel) (readPyToPs : Bool)
    (dstNull : Bool) (cap : Nat) (lockResult : Int)
    (hseq : (if readPyToPs then c.hdr.pythonSeq else c.hdr.powershellSeq) ≤
            (if readPyToPs then c.lastPythonSeqRead else c.lastPowershellSeqRead)) :
    read_direction c readPyToPs false dstNull cap 0 lockResult
      = .ret VS_TIMEOUT c none none ∧ VS_TIMEOUT ≠ VS_WOULD_BLOCK := by
  refine ⟨?_, by decide⟩
  simp only [read_direction, if_false, Bool.false_eq_true, if_neg (by simp : ¬False)]
  rw [if_pos hseq]
  simp

/-- Witness for `read_zero_timeout_returns_timeout` at a concrete input. -/
theorem read_zero_timeout_returns_timeout_witness :
    read_direction exChNoData true false true 0 0 VS_SYS_ERROR
      = .ret VS_TIMEOUT exChNoData none none ∧ VS_TIMEOUT ≠ VS_WOULD_BLOCK :=
  read_zero_timeout_returns_timeout exChNoData true true 0 VS_SYS_ERROR (by decide)

/-- **C7 counterexample.** The claim says a probe read (null `dst`) leaves
the reader's last-consumed sequence unchanged; on the concrete channel
`exChData` (one unconsumed 3-byte payload) the probe returns `ok` and the
exact length, but the last-consumed sequence moves from 4 to 5, so a
subsequent zero-timeout read reports no data. -/
theorem read_probe_counterexample :
    read_direction exChData true false true 0 1000 VS_OK
      = .ret VS_OK { exChData with lastPythonSeqRead := 5 } (some 3) none ∧
    ({ exChData with lastPythonSeqRead := 5 } : Channel).lastPythonSeqRead ≠
      exChData.lastPythonSeqRead := by
  constructor
  · decide
  · decide

/-- **C7 (amended).** Every bulk probe read (null output buffer), in either
direction, performed when new data is available returns `ok` and reports
the exact stored payload length, but it *does* consume the sequence: the
reader's last-consumed value for that direction is updated to the
direction's current sequence, so a subsequent zero-timeout read in the
same direction returns *timeout* rather than observing the data. -/
theorem read_probe_consumes (c : Channel) (readPyToPs : Bool) (cap timeoutMs : Nat)
    (hseq : (if readPyToPs then c.lastPythonSeqRead else c.lastPowershellSeqRead) <
            (if readPyToPs then c.hdr.pythonSeq else c.hdr.powershellSeq))
    (hlen : (if readPyToPs then c.hdr.pythonLength else c.hdr.powershellLength) ≤
            c.hdr.frameBytes) :
    read_direction c readPyToPs false true cap timeoutMs VS_OK
      = .ret VS_OK
          (if readPyToPs then { c with lastPythonSeqRead := c.hdr.pythonSeq }
           else { c with lastPowershellSeqRead := c.hdr.powershellSeq })
          (some (if readPyToPs then c.hdr.pythonLength else c.hdr.powershellLength))
          none ∧
    read_direction
        (if readPyToPs then { c with lastPythonSeqRead := c.hdr.pythonSeq }
         else { c with lastPowershellSeqRead := c.hdr.powershellSeq })
        readPyToPs false true cap 0 VS_OK
      = .ret VS_TIMEOUT
          (if readPyToPs then { c with lastPythonSeqRead := c.hdr.pythonSeq }
           else { c with lastPowershellSeqRead := c.hdr.powershellSeq })
          none none := by
  cases readPyToPs with
  | true =>
      simp at hseq hlen
      have h1 : ¬ c.hdr.pythonSeq ≤ c.lastPythonSeqRead := by omega
      have h2 : ¬ c.hdr.pythonLength > c.hdr.frameBytes := by omega
      constructor
      · simp [read_direction, h1, h2, VS_OK]
      · simp [read_direction, VS_OK]
  | false =>
      simp at hseq hlen
      have h1 : ¬ c.hdr.powershellSeq ≤ c.lastPowershellSeqRead := by omega
      have h2 : ¬ c.hdr.powershellLength > c.hdr.frameBytes := by omega
      constructor
      · simp [read_direction, h1, h2, VS_OK]
      · simp [read_direction, VS_OK]

/-- Witness for `read_probe_consumes` at concrete inputs, one per
direction. -/
theorem read_probe_consumes_witness :
    exChData.lastPythonSeqRead < exChData.hdr.pythonSeq ∧
    (read_direction exChData true false true 16 500 VS_OK
      = .ret VS_OK { exChData with lastPythonSeqRead := exChData.hdr.pythonSeq }
          (some exChData.hdr.pythonLength) none) ∧
    exChDataPs.lastPowershellSeqRead < exChDataPs.hdr.powershellSeq ∧
    (read_direction exChDataPs false false true 16 500 VS_OK
      = .ret VS_OK
          { exChDataPs with lastPowershellSeqRead := exChDataPs.hdr.powershellSeq }
          (some exChDataPs.hdr.powershellLength) none) :=
  ⟨by decide, (read_probe_consumes exChData true 16 500 (by decide) (by decide)).1,
   by decide, (read_probe_consumes exChDataPs false 16 500 (by decide) (by decide)).1⟩

/-- **C8.** `VS_OpenChannel`: every successful open with requested frame
capacity `F` yields a header with `magic = 0x4D485356`, `version = 1` and
`frame_bytes = F`; a header whose combined magic-and-version field differs
from the expected value is replaced by the zero-filled fresh header; a
matching header whose `frame_bytes` differs from `F` makes the open fail
(return `none`). -/
theorem VS_OpenChannel_header_invariant (nameNull : Bool) (F numSlots : Nat)
    (prior : VSHeader) (mapOk syncOk : Bool) (hdr : VSHeader)
    (hsome : VS_OpenChannel nameNull F numSlots prior mapOk syncOk = some hdr) :
    (hdr.magicAndVersion % 2 ^ 32 = 0x4D485356 ∧
     hdr.magicAndVersion / 2 ^ 32 = 1 ∧
     hdr.frameBytes = F) ∧
    (prior.magicAndVersion ≠ MAGIC64 → hdr = freshHeader F) ∧
    (∀ (prior' : VSHeader), prior'.magicAndVersion = MAGIC64 → prior'.frameBytes ≠ F →
        VS_OpenChannel nameNull F numSlots prior' mapOk syncOk = none) := by
  unfold VS_OpenChannel at hsome ⊢
  by_cases h0 : nameNull ∨ F = 0 ∨ numSlots = 0
  · rw [if_pos h0] at hsome; exact absurd hsome (by simp)
  · rw [if_neg h0] at hsome
    by_cases h1 : numSlots ≠ 1
    · rw [if_pos h1] at hsome; exact absurd hsome (by simp)
    · rw [if_neg h1] at hsome
      by_cases h2 : ¬mapOk
      · rw [if_pos h2] at hsome; exact absurd hsome (by simp)
      · rw [if_neg h2] at hsome
        have hside : ∀ (prior' : VSHeader), prior'.magicAndVersion = MAGIC64 →
            prior'.frameBytes ≠ F →
            (if nameNull ∨ F = 0 ∨ numSlots = 0 then none
             else if numSlots ≠ 1 then none
             else if ¬mapOk then none
             else if prior'.magicAndVersion ≠ MAGIC64 then
               if (freshHeader F).frameBytes = 0 then none
               else if ¬syncOk then none
               else some (freshHeader F)
             else if prior'.frameBytes ≠ F then none
             else if prior'.frameBytes = 0 then none
             else if ¬syncOk then none
             else some prior' : Option VSHeader) = none := by
          intro prior' hmv hfb
          rw [if_neg h0, if_neg h1, if_neg h2, if_neg (by simp [hmv]), if_pos hfb]
        by_cases h3 : prior.magicAndVersion ≠ MAGIC64
        · rw [if_pos h3] at hsome
          have hF : F ≠ 0 := by tauto
          rw [if_neg (by simpa [freshHeader] using hF)] at hsome
          by_cases h4 : ¬syncOk
          · rw [if_pos h4] at hsome; exact absurd hsome (by simp)
          · rw [if_neg h4] at hsome
            have hh : hdr = freshHeader F := by
              injection hsome with h; exact h.symm
            subst hh
            refine ⟨⟨?_, ?_, rfl⟩, fun _ => rfl, hside⟩
            · show MAGIC64 % 2 ^ 32 = 0x4D485356
              decide
            · show MAGIC64 / 2 ^ 32 = 1
              decide
        · rw [if_neg h3] at hsome
          push_neg at h3
          by_cases h4 : prior.frameBytes ≠ F
          · rw [if_pos h4] at hsome; exact absurd hsome (by simp)
          · rw [if_neg h4] at hsome
            push_neg at h4
            by_cases h5 : prior.frameBytes = 0
            · rw [if_pos h5] at hsome; exact absurd hsome (by simp)
            · rw [if_neg h5] at hsome
              by_cases h6 : ¬syncOk
              · rw [if_pos h6] at hsome; exact absurd hsome (by simp)
              · rw [if_neg h6] at hsome
                have hh : hdr = prior := by injection hsome with h; exact h.symm
                subst hh
                refine ⟨⟨?_, ?_, h4⟩, fun hc => absurd h3 hc, hside⟩
                · rw [h3]; decide
                · rw [h3]; decide

/-- Witness for `VS_OpenChannel_header_invariant` at a concrete input: a
fresh (all-zero) mapping opened with frame capacity 8. -/
theorem VS_OpenChannel_header_invariant_witness :
    VS_OpenChannel false 8 1
      { magicAndVersion := 0, frameBytes := 0, pythonSeq := 0,
        powershellSeq := 0, pythonLength := 0, powershellLength := 0 }
      true true = some (freshHeader 8) ∧
    (freshHeader 8).magicAndVersion % 2 ^ 32 = 0x4D485356 := by
  have h := VS_OpenChannel_header_invariant false 8 1
    { magicAndVersion := 0, frameBytes := 0, pythonSeq := 0,
      powershellSeq := 0, pythonLength := 0, powershellLength := 0 }
    true true (freshHeader 8) (by decide)
  exact ⟨by decide, h.1.1⟩

/-! ## Helper lemmas: packets and markers -/

theorem quoteBody_of_no_squote (s : List Char) (h : ∀ c ∈ s, c ≠ squote) :
    quoteBody s = s := by
  induction s with
  | nil => rfl
  | cons c t ih =>
      have hc : c ≠ squote := h c (by simp)
      simp only [quoteBody, if_neg hc]
      rw [ih (fun x hx => h x (by simp [hx]))]
      rfl

theorem digitChar_ne_squote (d : Nat) : digitChar d ≠ squote := by
  unfold digitChar
  split_ifs <;> decide

theorem decimalCharsAux_digits (fuel n : Nat) :
    ∀ c ∈ decimalCharsAux fuel n, ∃ d, c = digitChar d := by
  induction fuel generalizing n with
  | zero => intro c hc; simp [decimalCharsAux] at hc
  | succ fuel ih =>
      intro c hc
      simp only [decimalCharsAux] at hc
      by_cases h : n < 10
      · rw [if_pos h] at hc
        simp at hc
        exact ⟨n, hc⟩
      · rw [if_neg h] at hc
        rcases List.mem_append.mp hc with h1 | h1
        · exact ih (n / 10) c h1
        · simp at h1
          exact ⟨n % 10, h1⟩

theorem begMarker_no_squote (id : Nat) : ∀ c ∈ begMarker id, c ≠ squote := by
  intro c hc
  rcases List.mem_append.mp hc with h1 | h1
  · rcases List.mem_append.mp h1 with h2 | h2
    · revert h2
      have : ∀ x ∈ "<<<SS_BEG_".toList, x ≠ squote := by decide
      exact this c
    · obtain ⟨d, hd⟩ := decimalCharsAux_digits (id + 1) id c h2
      rw [hd]; exact digitChar_ne_squote d
  · revert h1
    have : ∀ x ∈ ">>>".toList, x ≠ squote := by decide
    exact this c

theorem endMarker_no_squote (id : Nat) : ∀ c ∈ endMarker id, c ≠ squote := by
  intro c hc
  rcases List.mem_append.mp hc with h1 | h1
  · rcases List.mem_append.mp h1 with h2 | h2
    · revert h2
      have : ∀ x ∈ "<<<SS_END_".toList, x ≠ squote := by decide
      exact this c
    · obtain ⟨d, hd⟩ := decimalCharsAux_digits (id + 1) id c h2
      rw [hd]; exact digitChar_ne_squote d
  · revert h1
    have : ∀ x ∈ ">>>".toList, x ≠ squote := by decide
    exact this c

theorem psQuoteSingle_of_no_squote (s : List Char) (h : ∀ c ∈ s, c ≠ squote) :
    psQuoteSingle s = squote :: (s ++ [squote]) := by
  rw [psQuoteSingle, quoteBody_of_no_squote s h]

theorem writeLine_ne_nil (m : List Char) : writeLine m ≠ [] := by
  intro h
  rw [writeLine] at h
  rcases List.append_eq_nil.mp h with ⟨h1, -⟩
  rcases List.append_eq_nil.mp h1 with ⟨h2, -⟩
  revert h2
  decide

theorem writeLine_getLast (m : List Char) : (writeLine m).getLast? = some '\n' := by
  rw [writeLine]
  have h2 : ")\n".toList = [')', '\n'] := by decide
  rw [h2, List.getLast?_append_of_ne_nil _ (by simp)]
  rfl

/-! ## Theorems: packet construction (C4) -/

/-- **C4 counterexample.** For the empty body the claimed wire format
(newline appended iff the body does not already end in one) disagrees with
the code: the source checks the last character of the *accumulated packet*,
which after the BEG line already ends in a newline, so no newline is
appended for an empty body, while the claim demands one. -/
theorem buildPwshPacket_counterexample :
    buildPwshPacket 1 [] ≠ claimedPacket 1 [] := by decide

/-- **C4 (amended).** The packet for id `I` and body `C` is exactly: a
`[Console]::Out.WriteLine('<<<SS_BEG_I>>>')` line, then `C` followed by a
newline if and only if `C` is nonempty and does not already end in one,
then a `[Console]::Out.WriteLine('<<<SS_END_I>>>')` line; the markers are
embedded literally (single-quoted, no escaping triggered), and they are
identical to the `beginMarker`/`endMarker` stored in the record `submit`
creates together with this packet. -/
theorem buildPwshPacket_wire (id : Nat) (cmd : List Char) :
    buildPwshPacket id cmd =
      writeLine (begMarker id) ++ cmd ++
        (if cmd ≠ [] ∧ cmd.getLast? ≠ some '\n' then ['\n'] else []) ++
        writeLine (endMarker id) ∧
    writeLine (begMarker id) =
      "[Console]::Out.WriteLine(".toList ++
        squote :: (begMarker id ++ [squote]) ++ ")\n".toList ∧
    writeLine (endMarker id) =
      "[Console]::Out.WriteLine(".toList ++
        squote :: (endMarker id ++ [squote]) ++ ")\n".toList ∧
    (∀ (st : ShellState) (cfg : Config) (tsec : Nat) (hasCb : Bool) (now : Nat),
      st.lifecycleGate = false → st.isRunning = true →
      (submit st cfg cmd tsec hasCb false now).2.1.writeQueue =
        st.writeQueue ++ [buildPwshPacket (st.seq + 1) cmd] ∧
      (submit st cfg cmd tsec hasCb false now).2.1.inflight =
        st.inflight ++ [(st.seq + 1,
          freshCmd (st.seq + 1) now (if tsec > 0 then tsec else cfg.timeoutSeconds) hasCb)] ∧
      (freshCmd (st.seq + 1) now (if tsec > 0 then tsec else cfg.timeoutSeconds)
          hasCb).beginMarker = begMarker (st.seq + 1) ∧
      (freshCmd (st.seq + 1) now (if tsec > 0 then tsec else cfg.timeoutSeconds)
          hasCb).endMarker = endMarker (st.seq + 1)) := by
  refine ⟨?_, ?_, ?_, ?_⟩
  · unfold buildPwshPacket packetAppendNl
    by_cases hc : cmd = []
    · subst hc
      have hA : ¬(writeLine (begMarker id) ++ ([] : List Char) = [] ∨
          (writeLine (begMarker id) ++ ([] : List Char)).getLast? ≠ some '\n') := by
        simp only [List.append_nil]
        rw [writeLine_getLast]
        rintro (h | h)
        · exact writeLine_ne_nil _ h
        · exact h rfl
      have hB : ¬(([] : List Char) ≠ [] ∧ ([] : List Char).getLast? ≠ some '\n') := by
        simp
      rw [if_neg hA, if_neg hB]
      simp
    · have hfull : writeLine (begMarker id) ++ cmd ≠ [] := by
        intro h
        exact writeLine_ne_nil _ (List.append_eq_nil.mp h).1
      have hlast : (writeLine (begMarker id) ++ cmd).getLast? = cmd.getLast? :=
        List.getLast?_append_of_ne_nil _ hc
      by_cases hn : cmd.getLast? = some '\n'
      · have hA : ¬(writeLine (begMarker id) ++ cmd = [] ∨
            (writeLine (begMarker id) ++ cmd).getLast? ≠ some '\n') := by
          rw [hlast]
          rintro (h | h)
          · exact hfull h
          · exact h hn
        have hB : ¬(cmd ≠ [] ∧ cmd.getLast? ≠ some '\n') := fun h => h.2 hn
        rw [if_neg hA, if_neg hB]
        simp
      · have hA : writeLine (begMarker id) ++ cmd = [] ∨
            (writeLine (begMarker id) ++ cmd).getLast? ≠ some '\n' := by
          right
          rw [hlast]
          exact hn
        rw [if_pos hA, if_pos ⟨hc, hn⟩]
  · rw [writeLine, psQuoteSingle_of_no_squote _ (begMarker_no_squote id)]
  · rw [writeLine, psQuoteSingle_of_no_squote _ (endMarker_no_squote id)]
  · intro st cfg tsec hasCb now hg hr
    refine ⟨?_, ?_, rfl, rfl⟩
    · simp [submit, hg, hr]
    · simp [submit, hg, hr, freshCmd]

/-- Witness for `buildPwshPacket_wire`: the fourth conjunct applied at a
concrete running state. -/
theorem buildPwshPacket_wire_witness :
    (submit exShellState exConfig ['l', 's'] 0 false false 7).2.1.writeQueue =
      exShellState.writeQueue ++ [buildPwshPacket 2 ['l', 's']] ∧
    buildPwshPacket 2 ['l', 's'] =
      writeLine (begMarker 2) ++ ['l', 's'] ++ ['\n'] ++ writeLine (endMarker 2) := by
  constructor
  · exact ((buildPwshPacket_wire 2 ['l', 's']).2.2.2 exShellState exConfig 0 false 7
      rfl rfl).1
  · have h := (buildPwshPacket_wire 2 ['l', 's']).1
    rw [h]
    decide

/-! ## Theorems: completion (C2) -/

/-- **C2.** `completeCmdLocked_`: the delivered result has
`success = endSeen && !timedOut` (`endSeen` is the `success` argument,
passed `true` exactly on the end-marker path), exit code 0 on success and
-1 otherwise, the accumulated buffers moved into the result (the record's
buffers are left empty), elapsed time computed from the start timestamp;
completion is idempotent (a record already `done` yields no resolution, no
events, no state change); the callback event follows the promise
resolution; and the outputs are independent of whether the callback would
throw (exceptions are swallowed). -/
theorem completeCmdLocked_ok (S : CmdState) (endSeen : Bool) (now : Nat)
    (hnotdone : S.done = false) :
    (∃ r, (completeCmdLocked S endSeen now).1 = some r ∧
      r.success = (endSeen && !S.timedOut) ∧
      r.exitCode = (if (endSeen && !S.timedOut) = true then (0 : Int) else -1) ∧
      r.out = S.outBuf ∧ r.err = S.errBuf ∧
      r.executionTime = now - S.tStart ∧
      (completeCmdLocked S endSeen now).2.2.done = true ∧
      (completeCmdLocked S endSeen now).2.2.outBuf = [] ∧
      (completeCmdLocked S endSeen now).2.2.errBuf = [] ∧
      (completeCmdLocked S endSeen now).2.1 =
        Ev.resolvePromise S.id ::
          (if S.hasCb = true then [Ev.invokeCallback S.id] else [])) ∧
    (∀ S' : CmdState, S'.done = true →
      ∀ b now', completeCmdLocked S' b now' = (none, [], S')) ∧
    (∀ b, completeCmdLocked { S with cbThrows := b } endSeen now =
      ((completeCmdLocked S endSeen now).1, (completeCmdLocked S endSeen now).2.1,
       { (completeCmdLocked S endSeen now).2.2 with cbThrows := b })) := by
  refine ⟨?_, ?_, ?_⟩
  · cases S with
    | mk i bm em pb ob eb bg dn t9 ts td hcb cbt =>
        simp only at hnotdone
        subst hnotdone
        exact ⟨_, rfl, rfl, rfl, rfl, rfl, rfl, rfl, rfl, rfl, rfl⟩
  · intro S' h b now'
    unfold completeCmdLocked
    rw [h]
    simp
  · intro b
    cases S with
    | mk i bm em pb ob eb bg dn t9 ts td hcb cbt =>
        simp only at hnotdone
        subst hnotdone
        simp [completeCmdLocked]

/-- Witness for `completeCmdLocked_ok` at a concrete record. -/
theorem completeCmdLocked_ok_witness :
    exCmd.done = false ∧
    (completeCmdLocked exCmd true 9).1 =
      some { out := [], err := [], exitCode := 0, success := true,
             executionTime := 9 } := by
  refine ⟨rfl, ?_⟩
  obtain ⟨r, hr, h1, h2, h3, h4, h5, -⟩ := (completeCmdLocked_ok exCmd true 9 rfl).1
  rw [hr]
  cases r
  simp only [Option.some.injEq, ExecutionResult.mk.injEq]
  simp [exCmd] at h1 h2 h3 h4 h5
  exact ⟨h3, h4, h2, h1, h5⟩

/-! ## Theorems: submit error delivery (C9) -/

/-- **C9.** `submit` never throws: every call returns, and the two error
paths return ready futures carrying the error in the result value — the
Restarting kind (`exit code -2`) when the lifecycle gate is closed and the
call does not bypass it, the NotRunning kind (`exit code -3`) when the
process is not running — both unsuccessful, distinct from each other and
from the TimedOut kind (`exit code -1`, produced by `fulfillTimeout_`). -/
theorem submit_error_kinds (st : ShellState) (cfg : Config) (command : List Char)
    (tsec : Nat) (hasCb bypass : Bool) (now : Nat) :
    (st.lifecycleGate = true → bypass = false →
      submit st cfg command tsec hasCb bypass now = (.ready restartingResult, st, [])) ∧
    (st.isRunning = false → (st.lifecycleGate = false ∨ bypass = true) →
      submit st cfg command tsec hasCb bypass now = (.ready notRunningResult, st, [])) ∧
    restartingResult.success = false ∧ notRunningResult.success = false ∧
    restartingResult.exitCode = -2 ∧ notRunningResult.exitCode = -3 ∧
    (∀ st' S esent cfg', ((fulfillTimeout st' S esent cfg').2.1).exitCode = -1 ∧
      ((fulfillTimeout st' S esent cfg').2.1).success = false) ∧
    restartingResult.exitCode ≠ notRunningResult.exitCode ∧
    restartingResult.exitCode ≠ -1 ∧ notRunningResult.exitCode ≠ -1 := by
  refine ⟨?_, ?_, rfl, rfl, rfl, rfl, ?_, by decide, by decide, by decide⟩
  · intro h1 h2
    simp [submit, h1, h2]
  · intro h1 h2
    rcases h2 with h2 | h2 <;> simp [submit, h1, h2]
  · exact fun st' S esent cfg' => ⟨rfl, rfl⟩

/-- Witness for `submit_error_kinds`: the NotRunning path at a concrete
stopped state. -/
theorem submit_error_kinds_witness :
    submit { exShellState with isRunning := false } exConfig [] 0 false false 0 =
      (.ready notRunningResult, { exShellState with isRunning := false }, []) ∧
    notRunningResult.exitCode = -3 := by
  have h := submit_error_kinds { exShellState with isRunning := false } exConfig [] 0
    false false 0
  exact ⟨h.2.1 rfl (Or.inl rfl), h.2.2.2.2.2.1⟩

/-! ## Theorems: stderr with empty FIFO (C10) -/

theorem sentinelScan_tally (fuel : Nat) :
    ∀ (chunk : List Char) (pending : Nat) (hasHead : Bool),
      (sentinelScan fuel chunk pending hasHead).2.1 ≤ pending ∧
      ((sentinelScan fuel chunk pending hasHead).2.2 = true → hasHead = true) ∧
      (findSub sentinel chunk = none →
        sentinelScan fuel chunk pending hasHead = (chunk, pending, false)) := by
  induction fuel with
  | zero =>
      intro chunk pending hasHead
      exact ⟨le_refl _, by simp [sentinelScan], by intro h; rfl⟩
  | succ fuel ih =>
      intro chunk pending hasHead
      by_cases hc : chunk = []
      · subst hc
        refine ⟨le_refl _, by simp [sentinelScan], by intro h; simp [sentinelScan]⟩
      · refine ⟨?_, ?_, ?_⟩
        · cases hfind : findSub sentinel chunk with
          | none => simp [sentinelScan, if_neg hc, hfind]
          | some pos =>
              simp only [sentinelScan, if_neg hc, hfind]
              by_cases hp : pending > 0
              · rw [if_pos hp]
                have := (ih (chunk.take pos ++ skipCrlf (chunk.drop (pos + sentinel.length)))
                  (pending - 1) hasHead).1
                omega
              · rw [if_neg hp]
        · cases hfind : findSub sentinel chunk with
          | none => simp [sentinelScan, if_neg hc, hfind]
          | some pos =>
              simp only [sentinelScan, if_neg hc, hfind]
              by_cases hp : pending > 0
              · rw [if_pos hp]
                exact (ih (chunk.take pos ++ skipCrlf (chunk.drop (pos + sentinel.length)))
                  (pending - 1) hasHead).2.1
              · rw [if_neg hp]
                exact fun h => h
        · intro hfind
          simp only [sentinelScan, if_neg hc, hfind]

/-- **C10.** A stderr chunk arriving while the in-flight FIFO is empty is
silently discarded: the in-flight map (hence every command buffer) is
unchanged, no promise is resolved and no command fails (no events), the
lifecycle gate is untouched, and the only possible effect is that timeout
sentinels found in the chunk are matched against (and decrement) the
pending-expected-sentinels tally; a chunk containing no sentinel leaves
the state entirely unchanged. -/
theorem onChunkErr_empty_fifo (st : ShellState) (cfg : Config) (sv : List Char)
    (horder : st.inflightOrder = []) :
    (onChunkErr st cfg sv).1.inflight = st.inflight ∧
    (onChunkErr st cfg sv).1.inflightOrder = [] ∧
    (onChunkErr st cfg sv).2 = [] ∧
    (onChunkErr st cfg sv).1.pendingTimeoutSentinels ≤ st.pendingTimeoutSentinels ∧
    (onChunkErr st cfg sv).1.lifecycleGate = st.lifecycleGate ∧
    (onChunkErr st cfg sv).1.inflightCount = st.inflightCount ∧
    (findSub sentinel sv = none → (onChunkErr st cfg sv).1 = st) := by
  by_cases hsv : sv = []
  · subst hsv
    simp [onChunkErr, horder]
  · have hscan := sentinelScan_tally sv.length sv st.pendingTimeoutSentinels false
    have heq : onChunkErr st cfg sv =
        ({ st with pendingTimeoutSentinels :=
            (sentinelScan sv.length sv st.pendingTimeoutSentinels false).2.1 }, []) := by
      simp only [onChunkErr, if_neg hsv, horder, Option.isSome_none]
    rw [heq]
    refine ⟨rfl, horder, rfl, hscan.1, rfl, rfl, ?_⟩
    intro hfind
    rw [hscan.2.2 hfind]

/-! ## Helper lemmas: association list, traces, demux unfolding -/

theorem lookupKey_mem : ∀ (infl : List (Nat × CmdState)) (id : Nat) (S : CmdState),
    lookupKey id infl = some S → (id, S) ∈ infl
  | [], id, S, h => by simp [lookupKey] at h
  | p :: t, id, S, h => by
      by_cases hp : p.1 = id
      · rw [lookupKey, if_pos hp] at h
        injection h with h
        subst h
        subst hp
        exact List.mem_cons_self _ _
      · rw [lookupKey, if_neg hp] at h
        exact List.mem_cons_of_mem _ (lookupKey_mem t id S h)

theorem eraseKey_mem : ∀ (infl : List (Nat × CmdState)) (id : Nat) (p : Nat × CmdState),
    p ∈ eraseKey id infl → p ∈ infl
  | [], _, _, h => by simp [eraseKey] at h
  | q :: t, id, p, h => by
      by_cases hq : q.1 = id
      · rw [eraseKey, if_pos hq] at h
        exact List.mem_cons_of_mem _ h
      · rw [eraseKey, if_neg hq] at h
        rcases List.mem_cons.mp h with h | h
        · exact h ▸ List.mem_cons_self _ _
        · exact List.mem_cons_of_mem _ (eraseKey_mem t id p h)

theorem firstReached_cons_hit (a b : Ev) (t : List Ev) (hab : a ≠ b) :
    firstReached a b (a :: t) = true := by
  simp [firstReached, hab]

theorem firstReached_cons_skip (a b e : Ev) (t : List Ev) (hea : e ≠ a) (heb : e ≠ b) :
    firstReached a b (e :: t) = firstReached a b t := by
  simp [firstReached, hea, heb]

theorem firstReached_append_left : ∀ (l1 l2 : List Ev) (a b : Ev),
    a ∈ l1 → b ∉ l1 → firstReached a b (l1 ++ l2) = true
  | [], _, a, b, ha, _ => by simp at ha
  | e :: t, l2, a, b, ha, hb => by
      have heb : e ≠ b := fun h => hb (h ▸ List.mem_cons_self _ _)
      by_cases hea : e = a
      · subst hea
        rw [List.cons_append, firstReached_cons_hit _ _ _ heb]
      · rw [List.cons_append, firstReached_cons_skip a b e _ hea heb]
        have ha' : a ∈ t := by
          rcases List.mem_cons.mp ha with h | h
          · exact absurd h.symm hea
          · exact h
        exact firstReached_append_left t l2 a b ha'
          (fun h => hb (List.mem_cons_of_mem _ h))

theorem beginPhase_fields (S : CmdState) (carry : List Char) (S1 : CmdState)
    (carry1 : List Char) (h : beginPhase S carry = some (S1, carry1)) :
    S1.id = S.id ∧ S1.done = S.done ∧ S1.hasCb = S.hasCb := by
  by_cases hb : S.begun = true
  · rw [beginPhase, if_pos hb] at h
    injection h with h
    injection h with h1 h2
    subst h1
    exact ⟨rfl, rfl, rfl⟩
  · rw [beginPhase, if_neg hb] at h
    cases hfind : findSub S.beginMarker (S.preBuf ++ carry) with
    | none =>
        simp only [hfind] at h
        exact absurd h (by simp)
    | some b =>
        simp only [hfind] at h
        injection h with h
        injection h with h1 h2
        subst h1
        exact ⟨rfl, rfl, rfl⟩

theorem onChunkOut_missing (now : Nat) (id : Nat) (rest : List Nat) (carry : List Char)
    (infl : List (Nat × CmdState)) (hc : carry ≠ []) (hl : lookupKey id infl = none) :
    onChunkOut now (id :: rest) carry infl = onChunkOut now rest carry infl := by
  simp [onChunkOut, hc, hl]

theorem onChunkOut_break (now : Nat) (id : Nat) (rest : List Nat) (carry : List Char)
    (infl : List (Nat × CmdState)) (S : CmdState) (hc : carry ≠ [])
    (hl : lookupKey id infl = some S) (hs : beginPhase S carry = none) :
    onChunkOut now (id :: rest) carry infl =
      (updateKey id { S with preBuf := capPreBuf (S.preBuf ++ carry) } infl,
       id :: rest, [], []) := by
  simp [onChunkOut, hc, hl, hs]

theorem onChunkOut_noEnd (now : Nat) (id : Nat) (rest : List Nat) (carry : List Char)
    (infl : List (Nat × CmdState)) (S S1 : CmdState) (carry1 : List Char)
    (hc : carry ≠ []) (hl : lookupKey id infl = some S)
    (hs : beginPhase S carry = some (S1, carry1))
    (hf : findSub S1.endMarker (S1.outBuf ++ carry1) = none) :
    onChunkOut now (id :: rest) carry infl =
      (updateKey id { S1 with outBuf := S1.outBuf ++ carry1 } infl,
       id :: rest, [], []) := by
  simp [onChunkOut, hc, hl, hs, hf]

theorem onChunkOut_complete (now : Nat) (id : Nat) (rest : List Nat) (carry : List Char)
    (infl : List (Nat × CmdState)) (S S1 : CmdState) (carry1 : List Char) (m : Nat)
    (hc : carry ≠ []) (hl : lookupKey id infl = some S)
    (hs : beginPhase S carry = some (S1, carry1))
    (hf : findSub S1.endMarker (S1.outBuf ++ carry1) = some m) :
    onChunkOut now (id :: rest) carry infl =
      ((onChunkOut now rest (skipCrlf ((S1.outBuf ++ carry1).drop (m + S1.endMarker.length)))
          (eraseKey id infl)).1,
       (onChunkOut now rest (skipCrlf ((S1.outBuf ++ carry1).drop (m + S1.endMarker.length)))
          (eraseKey id infl)).2.1,
       (match (completeCmdLocked { S1 with outBuf := (S1.outBuf ++ carry1).take m } true now).1 with
        | some r => [(id, r)] | none => []) ++
         (onChunkOut now rest (skipCrlf ((S1.outBuf ++ carry1).drop (m + S1.endMarker.length)))
          (eraseKey id infl)).2.2.1,
       (completeCmdLocked { S1 with outBuf := (S1.outBuf ++ carry1).take m } true now).2.1 ++
         Ev.eraseInflight id :: Ev.eraseOrder id ::
         (onChunkOut now rest (skipCrlf ((S1.outBuf ++ carry1).drop (m + S1.endMarker.length)))
          (eraseKey id infl)).2.2.2) := by
  simp [onChunkOut, hc, hl, hs, hf]

/-- Event-trace projection of `onChunkOut_complete`. -/
theorem onChunkOut_complete_events (now : Nat) (id : Nat) (rest : List Nat)
    (carry : List Char) (infl : List (Nat × CmdState)) (S S1 : CmdState)
    (carry1 : List Char) (m : Nat) (hc : carry ≠ [])
    (hl : lookupKey id infl = some S) (hs : beginPhase S carry = some (S1, carry1))
    (hf : findSub S1.endMarker (S1.outBuf ++ carry1) = some m) :
    (onChunkOut now (id :: rest) carry infl).2.2.2 =
      (completeCmdLocked { S1 with outBuf := (S1.outBuf ++ carry1).take m } true now).2.1 ++
        Ev.eraseInflight id :: Ev.eraseOrder id ::
        (onChunkOut now rest (skipCrlf ((S1.outBuf ++ carry1).drop (m + S1.endMarker.length)))
          (eraseKey id infl)).2.2.2 := by
  rw [onChunkOut_complete now id rest carry infl S S1 carry1 m hc hl hs hf]

/-- In the stdout demultiplexer, every map removal is preceded by the
promise resolution of the same id (the source calls `completeCmdLocked_`
before `inflight_.erase`). -/
theorem onChunkOut_resolve_before_erase (now : Nat) :
    ∀ (order : List Nat) (carry : List Char) (infl : List (Nat × CmdState)),
      (∀ p ∈ infl, p.2.id = p.1 ∧ p.2.done = false) →
      ∀ id, Ev.eraseInflight id ∈ (onChunkOut now order carry infl).2.2.2 →
        firstReached (Ev.resolvePromise id) (Ev.eraseInflight id)
          (onChunkOut now order carry infl).2.2.2 = true
  | [], carry, infl, hwf, id, hmem => by simp [onChunkOut] at hmem
  | id0 :: rest, carry, infl, hwf, id, hmem => by
      by_cases hc : carry = []
      · rw [hc] at hmem
        simp [onChunkOut] at hmem
      · cases hl : lookupKey id0 infl with
        | none =>
            rw [onChunkOut_missing now id0 rest carry infl hc hl] at hmem ⊢
            exact onChunkOut_resolve_before_erase now rest carry infl hwf id hmem
        | some S =>
            cases hs : beginPhase S carry with
            | none =>
                rw [onChunkOut_break now id0 rest carry infl S hc hl hs] at hmem
                simp at hmem
            | some pr =>
                obtain ⟨S1, carry1⟩ := pr
                cases hf : findSub S1.endMarker (S1.outBuf ++ carry1) with
                | none =>
                    rw [onChunkOut_noEnd now id0 rest carry infl S S1 carry1 hc hl hs hf]
                      at hmem
                    simp at hmem
                | some m =>
                    have hSmem := lookupKey_mem infl id0 S hl
                    have hSf := hwf _ hSmem
                    have hS1 := beginPhase_fields S carry S1 carry1 hs
                    have hS1id : S1.id = id0 := by rw [hS1.1, hSf.1]
                    have hS1done : S1.done = false := by rw [hS1.2.1, hSf.2]
                    have hcev : (completeCmdLocked
                        { S1 with outBuf := (S1.outBuf ++ carry1).take m } true now).2.1 =
                        Ev.resolvePromise id0 ::
                          (if S1.hasCb = true then [Ev.invokeCallback id0] else []) := by
                      simp [completeCmdLocked, hS1done, hS1id]
                    rw [onChunkOut_complete_events now id0 rest carry infl S S1 carry1 m
                      hc hl hs hf] at hmem ⊢
                    rw [hcev] at hmem ⊢
                    have hrec := onChunkOut_resolve_before_erase now rest
                      (skipCrlf ((S1.outBuf ++ carry1).drop (m + S1.endMarker.length)))
                      (eraseKey id0 infl)
                      (fun p hp => hwf p (eraseKey_mem infl id0 p hp)) id
                    by_cases hid : id = id0
                    · subst hid
                      rw [List.cons_append]
                      exact firstReached_cons_hit _ _ _ (by simp)
                    · have hmem' : Ev.eraseInflight id ∈ (onChunkOut now rest
                          (skipCrlf ((S1.outBuf ++ carry1).drop (m + S1.endMarker.length)))
                          (eraseKey id0 infl)).2.2.2 := by
                        rcases List.mem_append.mp hmem with h | h
                        · rcases List.mem_cons.mp h with h | h
                          · simp at h
                          · by_cases hcb : S1.hasCb = true
                            · rw [if_pos hcb] at h
                              simp at h
                            · rw [if_neg hcb] at h
                              simp at h
                        · rcases List.mem_cons.mp h with h | h
                          · simp [hid] at h
                          · rcases List.mem_cons.mp h with h | h
                            · simp at h
                            · exact h
                      have hfr := hrec hmem'
                      rw [List.cons_append,
                        firstReached_cons_skip _ _ _ _ (by simp; omega) (by simp)]
                      by_cases hcb : S1.hasCb = true
                      · rw [if_pos hcb, List.cons_append, List.nil_append,
                          firstReached_cons_skip _ _ _ _ (by simp) (by simp),
                          firstReached_cons_skip _ _ _ _ (by simp) (by simp; omega),
                          firstReached_cons_skip _ _ _ _ (by simp) (by simp)]
                        exact hfr
                      · rw [if_neg hcb, List.nil_append,
                          firstReached_cons_skip _ _ _ _ (by simp) (by simp; omega),
                          firstReached_cons_skip _ _ _ _ (by simp) (by simp)]
                        exact hfr

theorem stopResolveOne_events (now : Nat) (p : Nat × CmdState) (hdone : p.2.done = false) :
    stopResolveOne now p = Ev.resolvePromise p.2.id ::
      (if p.2.hasCb = true then [Ev.invokeCallback p.2.id] else []) := by
  simp [stopResolveOne, hdone, completeCmdLocked]

theorem stopFlatten_no_erase (now : Nat) (l : List (Nat × CmdState)) (id : Nat)
    (hwf : ∀ p ∈ l, p.2.id = p.1 ∧ p.2.done = false) :
    Ev.eraseInflight id ∉ (l.map (stopResolveOne now)).flatten := by
  intro h
  rcases List.mem_flatten.mp h with ⟨evs, hevs, hmem⟩
  rcases List.mem_map.mp hevs with ⟨p, hp, h⟩
  subst h
  rw [stopResolveOne_events now p (hwf p hp).2] at hmem
  rcases List.mem_cons.mp hmem with h | h
  · simp at h
  · by_cases hcb : p.2.hasCb = true
    · rw [if_pos hcb] at h
      simp at h
    · rw [if_neg hcb] at h
      simp at h

/-! ## Helper lemmas: substring search over marker-framed streams -/

theorem isPrefixL_self_append : ∀ (p t : List Char), isPrefixL p (p ++ t) = true
  | [], _ => rfl
  | a :: as, t => by
      rw [List.cons_append, isPrefixL]
      simp [isPrefixL_self_append as t]

theorem findSub_self_append (pat t : List Char) : findSub pat (pat ++ t) = some 0 := by
  have hpre := isPrefixL_self_append pat t
  cases hpt : pat ++ t with
  | nil =>
      have hp : pat = [] := (List.append_eq_nil.mp hpt).1
      subst hp
      simp [findSub, isPrefixL]
  | cons a s =>
      rw [hpt] at hpre
      rw [findSub, if_pos hpre]

theorem findSub_ltFree_append (pat s t : List Char) (hp : ∃ pt, pat = '<' :: pt)
    (hs : ∀ c ∈ s, c ≠ '<') :
    findSub pat (s ++ t) = (findSub pat t).map (· + s.length) := by
  induction s with
  | nil =>
      simp only [List.nil_append, List.length_nil]
      cases findSub pat t <;> simp
  | cons c s ih =>
      obtain ⟨pt, hpt⟩ := hp
      have hc : c ≠ '<' := hs c (by simp)
      have hpre : isPrefixL pat (c :: (s ++ t)) = false := by
        rw [hpt, isPrefixL]
        have hb : ('<' == c) = false := by
          simp
          exact fun h => hc h.symm
        rw [hb, Bool.false_and]
      rw [List.cons_append, findSub, if_neg (by simp [hpre]),
        ih (fun x hx => hs x (by simp [hx]))]
      cases findSub pat t with
      | none => simp
      | some x =>
          simp
          omega

theorem begMarker_cons (id : Nat) : ∃ t, begMarker id = '<' :: t := by
  refine ⟨"<<SS_BEG_".toList ++ decimalChars id ++ ">>>".toList, ?_⟩
  have h : "<<<SS_BEG_".toList = '<' :: "<<SS_BEG_".toList := by decide
  rw [begMarker, h]
  simp

theorem endMarker_cons (id : Nat) : ∃ t, endMarker id = '<' :: t := by
  refine ⟨"<<SS_END_".toList ++ decimalChars id ++ ">>>".toList, ?_⟩
  have h : "<<<SS_END_".toList = '<' :: "<<SS_END_".toList := by decide
  rw [endMarker, h]
  simp

theorem begMarker_ne_nil (id : Nat) : begMarker id ≠ [] := by
  obtain ⟨t, ht⟩ := begMarker_cons id
  rw [ht]
  simp

theorem skipCrlf_lf (t : List Char) : skipCrlf ('\n' :: t) = t := by
  simp [skipCrlf, skipCr, skipLf]

/-! ## Theorems: the stdout demultiplexer (C1) -/

/-- **C1.** End-to-end exactness of the stdout demultiplexer.  Submit-order
commands `cmds = [(id₁,out₁), …, (idₙ,outₙ)]` are in flight as fresh
records (as created by `submit`), and the interpreter's stdout stream —
arbitrary leading noise, then for each command its begin marker, a
newline, its output bytes, its end marker and a newline — arrives as one
chunk.  Provided the noise and the outputs contain no `'<'` (so no marker
can occur inside them; the spec requires markers not to occur in
legitimate output), the demultiplexer resolves exactly the n promises in
submit order; each result carries exactly that command's bytes between its
markers (`success = true`, exit code 0); the pre-marker noise is
discarded; the bytes after each end marker are carried to the next command
at the FIFO head, so the final map and FIFO are empty and the trace
resolves each promise before erasing its record. -/
theorem stdout_demux_exact (now t0 ts : Nat) :
    ∀ (cmds : List (Nat × List Char)) (noise : List Char),
      (∀ c ∈ noise, c ≠ '<') →
      (∀ p ∈ cmds, ∀ c ∈ p.2, c ≠ '<') →
      onChunkOut now (cmds.map Prod.fst) (noise ++ interpOut cmds)
          (cmds.map (fun q => (q.1, freshCmd q.1 t0 ts false))) =
        ([], [],
         cmds.map (fun q => (q.1,
           ({ out := q.2, err := [], exitCode := 0, success := true,
              executionTime := now - t0 } : ExecutionResult))),
         (cmds.map (fun q => [Ev.resolvePromise q.1, Ev.eraseInflight q.1,
            Ev.eraseOrder q.1])).flatten)
  | [], noise, hn, hcmds => by simp [interpOut, onChunkOut]
  | p :: rest, noise, hn, hcmds => by
      have hinterp : interpOut (p :: rest) =
          begMarker p.1 ++ '\n' :: (p.2 ++ endMarker p.1 ++ '\n' :: interpOut rest) := rfl
      have hcarryne : noise ++ interpOut (p :: rest) ≠ [] := by
        rw [hinterp]
        intro h
        rcases List.append_eq_nil.mp h with ⟨-, h2⟩
        exact begMarker_ne_nil p.1 (List.append_eq_nil.mp h2).1
      have hlk : lookupKey p.1
          ((p.1, freshCmd p.1 t0 ts false) ::
            rest.map (fun q => (q.1, freshCmd q.1 t0 ts false))) =
          some (freshCmd p.1 t0 ts false) := by
        rw [lookupKey, if_pos rfl]
      have hek : eraseKey p.1
          ((p.1, freshCmd p.1 t0 ts false) ::
            rest.map (fun q => (q.1, freshCmd q.1 t0 ts false))) =
          rest.map (fun q => (q.1, freshCmd q.1 t0 ts false)) := by
        rw [eraseKey, if_pos rfl]
      have hfind1 : findSub (begMarker p.1) (noise ++ interpOut (p :: rest)) =
          some noise.length := by
        rw [hinterp,
          findSub_ltFree_append (begMarker p.1) noise _ (begMarker_cons p.1) hn,
          findSub_self_append]
        simp
      have hdrop1 : (noise ++ interpOut (p :: rest)).drop
          (noise.length + (begMarker p.1).length) =
          '\n' :: (p.2 ++ endMarker p.1 ++ '\n' :: interpOut rest) := by
        rw [hinterp, ← List.append_assoc, ← List.length_append]
        exact List.drop_left _ _
      have hbp : beginPhase (freshCmd p.1 t0 ts false) (noise ++ interpOut (p :: rest)) =
          some ({ freshCmd p.1 t0 ts false with preBuf := [], begun := true },
                p.2 ++ endMarker p.1 ++ '\n' :: interpOut rest) := by
        have h1 : (freshCmd p.1 t0 ts false).preBuf ++ (noise ++ interpOut (p :: rest)) =
            noise ++ interpOut (p :: rest) := by simp [freshCmd]
        rw [beginPhase, if_neg (by simp [freshCmd]), h1]
        have h2 : (freshCmd p.1 t0 ts false).beginMarker = begMarker p.1 := rfl
        rw [h2, hfind1]
        simp only [hdrop1, skipCrlf_lf]
        rfl
      have hbuf : ({ freshCmd p.1 t0 ts false with
            preBuf := ([] : List Char), begun := true } : CmdState).outBuf ++
          (p.2 ++ endMarker p.1 ++ '\n' :: interpOut rest) =
          p.2 ++ (endMarker p.1 ++ '\n' :: interpOut rest) := by
        simp [freshCmd, List.append_assoc]
      have hfind2 : findSub
          ({ freshCmd p.1 t0 ts false with
              preBuf := ([] : List Char), begun := true } : CmdState).endMarker
          (({ freshCmd p.1 t0 ts false with
              preBuf := ([] : List Char), begun := true } : CmdState).outBuf ++
            (p.2 ++ endMarker p.1 ++ '\n' :: interpOut rest)) = some p.2.length := by
        rw [hbuf]
        have h2 : ({ freshCmd p.1 t0 ts false with
            preBuf := ([] : List Char), begun := true } : CmdState).endMarker =
            endMarker p.1 := rfl
        rw [h2,
          findSub_ltFree_append (endMarker p.1) p.2 _ (endMarker_cons p.1)
            (hcmds p (List.mem_cons_self _ _)),
          findSub_self_append]
        simp
      have htake : (({ freshCmd p.1 t0 ts false with
            preBuf := ([] : List Char), begun := true } : CmdState).outBuf ++
          (p.2 ++ endMarker p.1 ++ '\n' :: interpOut rest)).take p.2.length = p.2 := by
        rw [hbuf]
        exact List.take_left _ _
      have hdrop2 : skipCrlf ((({ freshCmd p.1 t0 ts false with
            preBuf := ([] : List Char), begun := true } : CmdState).outBuf ++
          (p.2 ++ endMarker p.1 ++ '\n' :: interpOut rest)).drop
          (p.2.length + ({ freshCmd p.1 t0 ts false with
            preBuf := ([] : List Char), begun := true } : CmdState).endMarker.length)) =
          interpOut rest := by
        have h2 : ({ freshCmd p.1 t0 ts false with
            preBuf := ([] : List Char), begun := true } : CmdState).endMarker =
            endMarker p.1 := rfl
        rw [hbuf, h2,
          show p.2.length + (endMarker p.1).length = (p.2 ++ endMarker p.1).length from
            (List.length_append _ _).symm,
          show p.2 ++ (endMarker p.1 ++ '\n' :: interpOut rest) =
            (p.2 ++ endMarker p.1) ++ ('\n' :: interpOut rest) from
            (List.append_assoc _ _ _).symm,
          List.drop_left]
        exact skipCrlf_lf _
      have hIH := stdout_demux_exact now t0 ts rest []
        (by simp)
        (fun q hq => hcmds q (List.mem_cons_of_mem _ hq))
      rw [List.nil_append] at hIH
      have hc1 : (completeCmdLocked
          { { freshCmd p.1 t0 ts false with
              preBuf := ([] : List Char), begun := true } with
            outBuf := (({ freshCmd p.1 t0 ts false with
              preBuf := ([] : List Char), begun := true } : CmdState).outBuf ++
              (p.2 ++ endMarker p.1 ++ '\n' :: interpOut rest)).take p.2.length }
          true now).1 =
          some ({ out := p.2, err := [], exitCode := 0, success := true,
                  executionTime := now - t0 } : ExecutionResult) := by
        rw [htake]
        simp [completeCmdLocked, freshCmd]
      have hcev : (completeCmdLocked
          { { freshCmd p.1 t0 ts false with
              preBuf := ([] : List Char), begun := true } with
            outBuf := (({ freshCmd p.1 t0 ts false with
              preBuf := ([] : List Char), begun := true } : CmdState).outBuf ++
              (p.2 ++ endMarker p.1 ++ '\n' :: interpOut rest)).take p.2.length }
          true now).2.1 = [Ev.resolvePromise p.1] := by
        simp [completeCmdLocked, freshCmd]
      simp only [List.map]
      rw [onChunkOut_complete now p.1 (rest.map Prod.fst) (noise ++ interpOut (p :: rest))
        ((p.1, freshCmd p.1 t0 ts false) ::
          rest.map (fun q => (q.1, freshCmd q.1 t0 ts false)))
        (freshCmd p.1 t0 ts false)
        { freshCmd p.1 t0 ts false with preBuf := ([] : List Char), begun := true }
        (p.2 ++ endMarker p.1 ++ '\n' :: interpOut rest) p.2.length
        hcarryne hlk hbp hfind2]
      rw [hc1, hcev, hdrop2, hek, hIH]
      simp

/-- Witness for `stdout_demux_exact`: two commands (outputs `hi` and
empty) with one byte of leading noise, processed in a single chunk. -/
theorem stdout_demux_exact_witness :
    (∀ c ∈ ['x'], c ≠ '<') ∧
    onChunkOut 9 [1, 2] ('x' :: interpOut [(1, ['h', 'i']), (2, [])])
        [(1, freshCmd 1 2 30 false), (2, freshCmd 2 2 30 false)] =
      ([], [],
       [(1, { out := ['h', 'i'], err := [], exitCode := 0, success := true,
              executionTime := 7 }),
        (2, { out := [], err := [], exitCode := 0, success := true,
              executionTime := 7 })],
       [Ev.resolvePromise 1, Ev.eraseInflight 1, Ev.eraseOrder 1,
        Ev.resolvePromise 2, Ev.eraseInflight 2, Ev.eraseOrder 2]) := by
  refine ⟨by decide, ?_⟩
  exact stdout_demux_exact 9 2 30 [(1, ['h', 'i']), (2, [])] ['x']
    (by decide) (by decide)

/-! ## Theorems: record lifecycle ordering (C3) -/

/-- **C3 counterexample.** On the deadline-timeout path the record is
removed from the in-flight map *before* its promise is resolved: at the
concrete one-command state `exShellState` the `timeoutOne_` trace reaches
the map-erase event strictly before the promise-resolution event
(the source moves the record out, erases it under the lock, and only then
calls `fulfillTimeout_`), contradicting the claim that removal happens
only after resolution on every completion path. -/
theorem timeoutOne_removes_before_resolving :
    firstReached (Ev.eraseInflight 1) (Ev.resolvePromise 1)
      (timeoutOne exShellState exConfig 1).2 = true ∧
    Ev.resolvePromise 1 ∈ (timeoutOne exShellState exConfig 1).2 := by
  constructor
  · decide
  · decide

/-- **C3 (amended).** For every submitted command the record is inserted
into the in-flight map and the FIFO before its packet is enqueued on the
writer queue.  The record is removed from the map only after its promise
has been resolved on the end-marker path and on the stop path; on the
deadline-timeout path the record is instead moved out and erased from the
map first, and its promise is resolved immediately afterwards — resolution
still occurs on that path, but after the removal. -/
theorem inflight_record_lifecycle (st : ShellState) (cfg : Config) (now : Nat)
    (force : Bool) :
    (∀ (command : List Char) (tsec : Nat) (hasCb bypass : Bool),
      (submit st cfg command tsec hasCb bypass now).2.2 = [] ∨
      (firstReached (Ev.insertInflight (st.seq + 1)) (Ev.enqueueWrite (st.seq + 1))
        (submit st cfg command tsec hasCb bypass now).2.2 = true ∧
       firstReached (Ev.pushOrder (st.seq + 1)) (Ev.enqueueWrite (st.seq + 1))
        (submit st cfg command tsec hasCb bypass now).2.2 = true)) ∧
    (∀ (order : List Nat) (carry : List Char) (infl : List (Nat × CmdState)),
      (∀ p ∈ infl, p.2.id = p.1 ∧ p.2.done = false) →
      ∀ id, Ev.eraseInflight id ∈ (onChunkOut now order carry infl).2.2.2 →
        firstReached (Ev.resolvePromise id) (Ev.eraseInflight id)
          (onChunkOut now order carry infl).2.2.2 = true) ∧
    ((∀ p ∈ st.inflight, p.2.id = p.1 ∧ p.2.done = false) →
      ∀ id, Ev.eraseInflight id ∈ (stopShell st force now).2 →
        firstReached (Ev.resolvePromise id) (Ev.eraseInflight id)
          (stopShell st force now).2 = true) ∧
    (∀ (id : Nat) (S : CmdState), lookupKey id st.inflight = some S → S.id = id →
      firstReached (Ev.eraseInflight id) (Ev.resolvePromise id)
        (timeoutOne st cfg id).2 = true ∧
      Ev.resolvePromise id ∈ (timeoutOne st cfg id).2) := by
  refine ⟨?_, ?_, ?_, ?_⟩
  · intro command tsec hasCb bypass
    by_cases h1 : st.lifecycleGate = true ∧ bypass = false
    · left
      simp [submit, h1.1, h1.2]
    · by_cases h2 : st.isRunning = true
      · right
        have hsub : (submit st cfg command tsec hasCb bypass now).2.2 =
            [Ev.insertInflight (st.seq + 1), Ev.pushOrder (st.seq + 1),
             Ev.enqueueWrite (st.seq + 1)] := by
          rw [submit, if_neg ?_, if_neg (by simp [h2])]
          simpa [not_and_or] using h1
        rw [hsub]
        constructor
        · rw [firstReached_cons_hit _ _ _ (by simp)]
        · rw [firstReached_cons_skip _ _ _ _ (by simp) (by simp),
            firstReached_cons_hit _ _ _ (by simp)]
      · left
        rcases not_and_or.mp h1 with h1 | h1
        · simp [submit, eq_false_of_ne_true h1, eq_false_of_ne_true h2]
        · simp [submit, eq_true_of_ne_false h1, eq_false_of_ne_true h2]
  · exact fun order carry infl hwf id hmem =>
      onChunkOut_resolve_before_erase now order carry infl hwf id hmem
  · intro hwf id hmem
    by_cases hr : st.isRunning = true
    · have hstop : (stopShell st force now).2 =
          (st.inflight.map (stopResolveOne now)).flatten ++
            st.inflight.map (fun p => Ev.eraseInflight p.1) := by
        simp [stopShell, hr]
      rw [hstop] at hmem ⊢
      have hnoerase := stopFlatten_no_erase now st.inflight id hwf
      rcases List.mem_append.mp hmem with h | h
      · exact absurd h hnoerase
      · rcases List.mem_map.mp h with ⟨p, hp, hpe⟩
        have hpid : p.1 = id := by
          injection hpe
        have hres : Ev.resolvePromise id ∈
            (st.inflight.map (stopResolveOne now)).flatten := by
          apply List.mem_flatten.mpr
          refine ⟨stopResolveOne now p, List.mem_map_of_mem _ hp, ?_⟩
          rw [stopResolveOne_events now p (hwf p hp).2, (hwf p hp).1, hpid]
          exact List.mem_cons_self _ _
        exact firstReached_append_left _ _ _ _ hres hnoerase
    · have : (stopShell st force now).2 = [] := by
        simp [stopShell, hr]
      rw [this] at hmem
      simp at hmem
  · intro id S hl hid
    have htrace : (timeoutOne st cfg id).2 =
        Ev.eraseInflight id :: Ev.eraseOrder id :: Ev.resolvePromise id ::
          (if S.hasCb = true then [Ev.invokeCallback id] else []) := by
      simp [timeoutOne, hl, fulfillTimeout, hid]
    rw [htrace]
    constructor
    · rw [firstReached_cons_hit _ _ _ (by simp)]
    · exact List.mem_cons_of_mem _ (List.mem_cons_of_mem _ (List.mem_cons_self _ _))

/-- Witness for `inflight_record_lifecycle`: a concrete submit trace and a
concrete timeout trace at the one-command state. -/
theorem inflight_record_lifecycle_witness :
    (firstReached (Ev.insertInflight 2) (Ev.enqueueWrite 2)
      (submit exShellState exConfig ['a'] 0 false false 0).2.2 = true) ∧
    firstReached (Ev.eraseInflight 1) (Ev.resolvePromise 1)
      (timeoutOne exShellState exConfig 1).2 = true := by
  have h := inflight_record_lifecycle exShellState exConfig 0 false
  constructor
  · rcases h.1 ['a'] 0 false false with h1 | h1
    · exact absurd h1 (by decide)
    · exact h1.1
  · exact (h.2.2.2 1 exCmd (by decide) (by decide)).1

/-- Witness for `onChunkErr_empty_fifo`: a sentinel-bearing stderr chunk
against an empty FIFO with a positive expected tally. -/
theorem onChunkErr_empty_fifo_witness :
    (onChunkErr exEmptyState exConfig ('x' :: sentinel)).1.inflight = [] ∧
    (onChunkErr exEmptyState exConfig ('x' :: sentinel)).2 = [] := by
  have h := onChunkErr_empty_fifo exEmptyState exConfig ('x' :: sentinel) rfl
  exact ⟨h.1, h.2.2.1⟩

end VirtualShell
